import Mathlib

/-!
Shallow embedding of the go-flags library (package flags): the EnumFlag and
EnumSliceFlag value types, translated from enum_flag.go, enumslice_flag.go and
the companion revisions shipped with the repository.

Strings are modelled as lists of characters (`Str`), so that every operation is
structural and concrete states evaluate inside the kernel.  The dynamic
resolver (`AllowedFunc`) is modelled as an optional pure function of the
`args` slice, the only argument that varies across the two embedded call
sites: `Set` invokes it with nil args and `Get` with `["__default__"]`, the
context and command arguments being a fixed background context and nil in the
Go source at both sites.  The completion machinery (CompletionFunc) is not
embedded: no claim refers to it.
-/

abbrev Str := List Char

/-- Go strings.Split(s, ",") for the one-character separator used by the
library: splits on every comma, yielding at least one (possibly empty)
token. -/
def splitComma : Str → List Str
  | [] => [[]]
  | c :: rest =>
    match splitComma rest with
    | [] => [[]]
    | t :: ts => if c = ',' then [] :: t :: ts else (c :: t) :: ts

/-- Go strings.Join(l, ", "): comma-space joined rendering of the allowed
list, as placed inside the invalid-argument error. -/
def joinCS (l : List Str) : Str :=
  List.intercalate [',', ' '] l

/-- Go strings.HasPrefix(s, "+"). -/
def hasPlus : Str → Bool
  | c :: _ => c = '+'
  | [] => false

/-- Go strings.TrimPrefix(s, "+"): drops one leading marker when present. -/
def trimPlus (s : Str) : Str :=
  if hasPlus s = true then s.tail else s

/-- The single error kind raised by the library: errors.ArgumentInvalid.With
("value", value, strings.Join(allowed, ", ")), carrying the rejected raw
input and the comma-joined currently known allowed list. -/
inductive SetError where
  | argumentInvalid (value : Str) (allowed : Str)
deriving DecidableEq

/-- EnumFlag (enum_flag.go): a flag holding one string.  The completion-only
resolver field is not embedded since no embedded operation reads it. -/
structure EnumFlag where
  Allowed : List Str
  Value : Str

/-- NewEnumFlag (enum_flag.go lines 35-51): scans the entries; an entry with a
leading marker is stripped and latched as the default only while the default
is still empty, otherwise the entry is appended to the allowed list
verbatim.  `enumScan` is the loop body. -/
def enumScan (acc : List Str × Str) (value : Str) : List Str × Str :=
  if hasPlus value = true ∧ acc.2 = [] then
    (acc.1 ++ [trimPlus value], trimPlus value)
  else
    (acc.1 ++ [value], acc.2)

def NewEnumFlag (allowed : List Str) : EnumFlag :=
  let r := List.foldl enumScan ([], []) allowed
  { Allowed := r.1, Value := r.2 }

/-- EnumFlag.Set (enum_flag.go lines 78-95): the whole validation block is
commented out in the source, so the assignment `flag.Value = value` runs
unconditionally and nil is returned. -/
def EnumFlag.Set (flag : EnumFlag) (value : Str) : EnumFlag × Option SetError :=
  ({ flag with Value := value }, none)

/-- EnumFlag.Set as it reads in the earlier revision (src/unnamed/part_000
lines 72-84): validates against the allowed list and fails with
ArgumentInvalid when nothing matches. -/
def EnumFlag.SetValidating (flag : EnumFlag) (value : Str) : EnumFlag × Option SetError :=
  if value ∈ flag.Allowed then ({ flag with Value := value }, none)
  else (flag, some (SetError.argumentInvalid value (joinCS flag.Allowed)))

/-- EnumSliceFlag (enumslice_flag.go): a repeatable flag accumulating an
ordered list of strings. -/
structure EnumSliceFlag where
  Allowed : List Str
  Values : List Str
  Default : List Str
  AllowedFunc : Option (List Str → List Str)
  AllAllowed : Bool
  all : Bool

/-- The allowed list after the resolver step at the head of Set: when a
resolver is configured it is invoked (with nil args) and replaces the cached
list, otherwise the cached list stands. -/
def EnumSliceFlag.resolvedAllowed (flag : EnumSliceFlag) : List Str :=
  match flag.AllowedFunc with
  | some f => f []
  | none => flag.Allowed

def allS : Str := "all".toList

def defaultArgS : Str := "__default__".toList

/-- The conditional append used throughout the source: append v unless it is
already present (core.Contains check). -/
def insertValue (values : List Str) (v : Str) : List Str :=
  if v ∈ values then values else values ++ [v]

/-- The inner loop of EnumSliceFlag.Set: scan the allowed list for one token
v, flipping the found flag and appending v (when absent) at each match. -/
def scanAllowed (allowed : List Str) (acc : List Str × Bool) (v : Str) :
    List Str × Bool :=
  List.foldl
    (fun (acc : List Str × Bool) a =>
      if v = a then (insertValue acc.1 v, true) else acc)
    acc allowed

/-- EnumSliceFlag.Set (enumslice_flag.go lines 128-153): resolve the allowed
list if a resolver is set; accept "all" wholesale when AllAllowed; otherwise
split the input on commas and, for each token, scan the allowed list,
recording a match and appending the token when absent; succeed when at least
one token matched, fail with ArgumentInvalid otherwise. -/
def EnumSliceFlag.Set (flag0 : EnumSliceFlag) (value : Str) :
    EnumSliceFlag × Option SetError :=
  let flag := { flag0 with Allowed := flag0.resolvedAllowed }
  if value = allS ∧ flag.AllAllowed = true then
    ({ flag with Values := flag.Allowed, all := true }, none)
  else
    let r := List.foldl (scanAllowed flag.Allowed)
      (flag.Values, false) (splitComma value)
    if r.2 = true then
      ({ flag with Values := r.1 }, none)
    else
      ({ flag with Values := r.1 },
        some (SetError.argumentInvalid value (joinCS flag.Allowed)))

/-- EnumSliceFlag.Get (enumslice_flag.go lines 156-165): when no value has
accumulated, query the resolver with the "__default__" argument if one is
configured, else fall back to the Default field; otherwise return the
accumulated values (the "all" token is never prepended here). -/
def EnumSliceFlag.Get (flag : EnumSliceFlag) : List Str :=
  if flag.Values = [] then
    match flag.AllowedFunc with
    | some f => f [defaultArgS]
    | none => flag.Default
  else flag.Values

/-- EnumSliceFlag.GetSlice (src/unnamed/part_002 lines 162-171): the revision
of the read accessor that reports the literal "all" token: defaults when
nothing accumulated, otherwise "all" prepended to the values when the all
marker is set. -/
def EnumSliceFlag.GetSlice (flag : EnumSliceFlag) : List Str :=
  if flag.Values = [] then flag.Default
  else if flag.all = true then allS :: flag.Values
  else flag.Values

/-- EnumSliceFlag.Append (src/unnamed/part_002 lines 139-146): split on
commas and append each token not already present; never fails and never
validates. -/
def EnumSliceFlag.Append (flag : EnumSliceFlag) (value : Str) : EnumSliceFlag :=
  { flag with Values := List.foldl insertValue flag.Values (splitComma value) }

/-- EnumSliceFlag.Replace (src/unnamed/part_002 lines 151-157): reset the
values then re-add every entry through Append. -/
def EnumSliceFlag.Replace (flag : EnumSliceFlag) (values : List Str) : EnumSliceFlag :=
  List.foldl (fun f v => f.Append v) { flag with Values := [] } values

/-- EnumSliceFlag.Contains (enumslice_flag.go lines 168-179). -/
def EnumSliceFlag.Contains (flag : EnumSliceFlag) (value : Str) : Bool :=
  if flag.all = true ∧ value = allS then true
  else if value ∉ flag.Allowed then false
  else if flag.all = true then true
  else decide (value ∈ flag.Values)

/-- EnumSliceFlag.String (enumslice_flag.go lines 113-125): bracketed
comma-joined rendering of the physically accumulated values. -/
def EnumSliceFlag.toString (flag : EnumSliceFlag) : Str :=
  '[' :: List.intercalate [','] flag.Values ++ [']']

/-- NewEnumSliceFlag (enumslice_flag.go lines 39-55): every marker-prefixed
entry is stripped and collected both into the allowed list and into the
defaults. -/
def NewEnumSliceFlag (allowed : List Str) : EnumSliceFlag :=
  let r := List.foldl
    (fun (acc : List Str × List Str) value =>
      if hasPlus value = true then
        (acc.1 ++ [trimPlus value], acc.2 ++ [trimPlus value])
      else
        (acc.1 ++ [value], acc.2))
    ([], []) allowed
  { Allowed := r.1, Values := [], Default := r.2,
    AllowedFunc := none, AllAllowed := false, all := false }

/-- NewEnumSliceFlagWithAllAllowed (enumslice_flag.go lines 89-93). -/
def NewEnumSliceFlagWithAllAllowed (allowed : List Str) : EnumSliceFlag :=
  { NewEnumSliceFlag allowed with AllAllowed := true }

def oneS : Str := "one".toList
def twoS : Str := "two".toList
def threeS : Str := "three".toList
def fourS : Str := "four".toList
def oneTwoS : Str := "one,two".toList

/-! ### Concrete sample states used by the concrete theorems -/

def c1Flag : EnumFlag := { Allowed := [oneS, twoS, threeS], Value := oneS }

def c2Flag : EnumSliceFlag :=
  { Allowed := [oneS, twoS]
    Values := []
    Default := []
    AllowedFunc := none
    AllAllowed := true
    all := false }

def c2wFlag : EnumSliceFlag :=
  { Allowed := [oneS, twoS]
    Values := [oneS]
    Default := []
    AllowedFunc := none
    AllAllowed := true
    all := true }

def c3Flag : EnumSliceFlag :=
  { Allowed := [oneS]
    Values := []
    Default := []
    AllowedFunc := none
    AllAllowed := true
    all := false }

def c3wFlag : EnumSliceFlag :=
  { Allowed := [oneS, twoS]
    Values := []
    Default := []
    AllowedFunc := none
    AllAllowed := false
    all := false }

def oneZzzS : Str := "one,zzz".toList

def c5Flag : EnumSliceFlag :=
  { Allowed := [oneS, twoS, threeS]
    Values := [threeS]
    Default := []
    AllowedFunc := none
    AllAllowed := false
    all := false }

def c5wFlag : EnumSliceFlag :=
  { Allowed := [oneS, twoS]
    Values := []
    Default := []
    AllowedFunc := none
    AllAllowed := false
    all := false }

def c6wFlag : EnumSliceFlag :=
  { Allowed := [oneS, twoS]
    Values := []
    Default := []
    AllowedFunc := none
    AllAllowed := false
    all := false }

def c7wFlag : EnumSliceFlag :=
  { Allowed := [oneS]
    Values := [oneS]
    Default := []
    AllowedFunc := none
    AllAllowed := false
    all := false }

def c8wFlag : EnumSliceFlag :=
  { Allowed := [oneS, twoS]
    Values := [twoS]
    Default := []
    AllowedFunc := none
    AllAllowed := true
    all := false }

def c9wFlag : EnumSliceFlag :=
  { Allowed := [oneS]
    Values := [oneS]
    Default := []
    AllowedFunc := none
    AllAllowed := false
    all := false }

def c10Flag : EnumSliceFlag :=
  { Allowed := [oneS, twoS]
    Values := []
    Default := [oneS]
    AllowedFunc := some fun _ => [twoS]
    AllAllowed := false
    all := false }

def c10wFlag : EnumSliceFlag :=
  { Allowed := [oneS]
    Values := []
    Default := [oneS]
    AllowedFunc := none
    AllAllowed := false
    all := false }

/-! ### Helper lemmas about the embedded operations -/

lemma mem_insertValue_self (l : List Str) (v : Str) : v ∈ insertValue l v := by
  unfold insertValue
  split
  · assumption
  · exact List.mem_append_right _ (List.mem_singleton.mpr rfl)

lemma insertValue_of_mem {l : List Str} {v : Str} (h : v ∈ l) :
    insertValue l v = l := by
  unfold insertValue
  rw [if_pos h]

lemma insertValue_insertValue (l : List Str) (v : Str) :
    insertValue (insertValue l v) v = insertValue l v :=
  insertValue_of_mem (mem_insertValue_self l v)

lemma mem_insertValue {t : Str} (l : List Str) (v : Str) :
    t ∈ insertValue l v ↔ t ∈ l ∨ t = v := by
  unfold insertValue
  split
  · rename_i hv
    constructor
    · exact Or.inl
    · rintro (h | rfl)
      · exact h
      · exact hv
  · simp [List.mem_append]

lemma insertValue_nodup {l : List Str} (h : l.Nodup) (v : Str) :
    (insertValue l v).Nodup := by
  unfold insertValue
  split
  · exact h
  · rename_i hv
    simp [List.nodup_append, h, hv]

lemma insertValue_exists_append (l : List Str) (v : Str) :
    ∃ t, insertValue l v = l ++ t := by
  unfold insertValue
  split
  · exact ⟨[], by simp⟩
  · exact ⟨[v], rfl⟩

lemma scanAllowed_eq (A : List Str) (acc : List Str × Bool) (v : Str) :
    scanAllowed A acc v = if v ∈ A then (insertValue acc.1 v, true) else acc := by
  induction A generalizing acc with
  | nil => simp [scanAllowed]
  | cons a A ih =>
    unfold scanAllowed at ih ⊢
    rw [List.foldl_cons]
    by_cases hv : v = a
    · subst hv
      rw [if_pos rfl, ih]
      by_cases hm : v ∈ A
      · rw [if_pos hm, if_pos (List.mem_cons_self ..)]
        simp [insertValue_insertValue]
      · rw [if_neg hm, if_pos (List.mem_cons_self ..)]
    · rw [if_neg hv, ih]
      by_cases hm : v ∈ A
      · rw [if_pos hm, if_pos (List.mem_cons_of_mem _ hm)]
      · rw [if_neg hm, if_neg (by simp [hv, hm])]

/-- The accumulated-values effect of one Set batch, as a plain fold: each
token in the allowed list is appended unless already present, other tokens
are skipped. -/
def insFold (A vs ts : List Str) : List Str :=
  List.foldl (fun vs t => if t ∈ A then insertValue vs t else vs) vs ts

lemma foldScan_fst (A ts : List Str) (vs : List Str) (b : Bool) :
    (List.foldl (scanAllowed A) (vs, b) ts).1 = insFold A vs ts := by
  induction ts generalizing vs b with
  | nil => rfl
  | cons t ts ih =>
    rw [List.foldl_cons, scanAllowed_eq]
    unfold insFold
    rw [List.foldl_cons]
    by_cases hm : t ∈ A
    · rw [if_pos hm, if_pos hm]
      exact ih (insertValue vs t) true
    · rw [if_neg hm, if_neg hm]
      exact ih vs b

lemma foldScan_snd (A ts : List Str) (vs : List Str) (b : Bool) :
    (List.foldl (scanAllowed A) (vs, b) ts).2
      = (b || ts.any fun t => decide (t ∈ A)) := by
  induction ts generalizing vs b with
  | nil => simp
  | cons t ts ih =>
    rw [List.foldl_cons, scanAllowed_eq]
    by_cases hm : t ∈ A
    · rw [if_pos hm, ih]
      simp [hm]
    · rw [if_neg hm, ih]
      simp [hm]

lemma insFold_of_no_match (A ts vs : List Str) (h : ∀ t ∈ ts, t ∉ A) :
    insFold A vs ts = vs := by
  induction ts generalizing vs with
  | nil => rfl
  | cons t ts ih =>
    unfold insFold at ih ⊢
    rw [List.foldl_cons, if_neg (h t (List.mem_cons_self ..))]
    exact ih vs fun u hu => h u (List.mem_cons_of_mem _ hu)

lemma insFold_nodup (A ts : List Str) {vs : List Str} (h : vs.Nodup) :
    (insFold A vs ts).Nodup := by
  induction ts generalizing vs with
  | nil => exact h
  | cons t ts ih =>
    unfold insFold at ih ⊢
    rw [List.foldl_cons]
    by_cases hm : t ∈ A
    · rw [if_pos hm]
      exact ih (insertValue_nodup h t)
    · rw [if_neg hm]
      exact ih h

lemma insFold_exists_append (A ts vs : List Str) :
    ∃ tail, insFold A vs ts = vs ++ tail := by
  induction ts generalizing vs with
  | nil => exact ⟨[], by simp [insFold]⟩
  | cons t ts ih =>
    unfold insFold at ih ⊢
    rw [List.foldl_cons]
    by_cases hm : t ∈ A
    · rw [if_pos hm]
      obtain ⟨t2, h2⟩ := insertValue_exists_append vs t
      obtain ⟨t3, h3⟩ := ih (insertValue vs t)
      exact ⟨t2 ++ t3, by rw [h3, h2, List.append_assoc]⟩
    · rw [if_neg hm]
      exact ih vs

lemma mem_insFold_of_not_allowed (A ts vs : List Str) {t : Str} (hA : t ∉ A) :
    t ∈ insFold A vs ts ↔ t ∈ vs := by
  induction ts generalizing vs with
  | nil => exact Iff.rfl
  | cons u ts ih =>
    unfold insFold at ih ⊢
    rw [List.foldl_cons]
    by_cases hm : u ∈ A
    · rw [if_pos hm]
      rw [ih (insertValue vs u), mem_insertValue]
      constructor
      · rintro (h | rfl)
        · exact h
        · exact absurd hm hA
      · exact Or.inl
    · rw [if_neg hm]
      exact ih vs

lemma foldIns_nodup (ts : List Str) {vs : List Str} (h : vs.Nodup) :
    (List.foldl insertValue vs ts).Nodup := by
  induction ts generalizing vs with
  | nil => exact h
  | cons t ts ih =>
    rw [List.foldl_cons]
    exact ih (insertValue_nodup h t)

lemma foldIns_exists_append (ts vs : List Str) :
    ∃ tail, List.foldl insertValue vs ts = vs ++ tail := by
  induction ts generalizing vs with
  | nil => exact ⟨[], by simp⟩
  | cons t ts ih =>
    rw [List.foldl_cons]
    obtain ⟨t2, h2⟩ := insertValue_exists_append vs t
    obtain ⟨t3, h3⟩ := ih (insertValue vs t)
    exact ⟨t2 ++ t3, by rw [h3, h2, List.append_assoc]⟩

lemma set_all (flag : EnumSliceFlag) (h : flag.AllAllowed = true) :
    flag.Set allS =
      ({ flag with
          Allowed := flag.resolvedAllowed
          Values := flag.resolvedAllowed
          all := true }, none) := by
  simp only [EnumSliceFlag.Set]
  rw [if_pos ⟨trivial, h⟩]

lemma set_fst (flag : EnumSliceFlag) (value : Str)
    (h : ¬(value = allS ∧ flag.AllAllowed = true)) :
    (flag.Set value).1 =
      { flag with
          Allowed := flag.resolvedAllowed
          Values := insFold flag.resolvedAllowed flag.Values (splitComma value) } := by
  simp only [EnumSliceFlag.Set]
  rw [if_neg h, foldScan_fst]
  split <;> rfl

lemma set_snd (flag : EnumSliceFlag) (value : Str)
    (h : ¬(value = allS ∧ flag.AllAllowed = true)) :
    (flag.Set value).2 =
      if ((splitComma value).any fun t => decide (t ∈ flag.resolvedAllowed)) = true
      then none
      else some (SetError.argumentInvalid value (joinCS flag.resolvedAllowed)) := by
  simp only [EnumSliceFlag.Set]
  rw [if_neg h, foldScan_snd]
  simp only [Bool.false_or]
  by_cases hb : ((splitComma value).any fun t => decide (t ∈ flag.resolvedAllowed)) = true
  · rw [if_pos hb, if_pos hb]
  · rw [if_neg hb, if_neg hb]

lemma set_allowedFunc (flag : EnumSliceFlag) (v : Str) :
    (flag.Set v).1.AllowedFunc = flag.AllowedFunc := by
  simp only [EnumSliceFlag.Set]
  split
  · rfl
  · split <;> rfl

lemma set_allowed (flag : EnumSliceFlag) (v : Str) :
    (flag.Set v).1.Allowed = flag.resolvedAllowed := by
  simp only [EnumSliceFlag.Set]
  split
  · rfl
  · split <;> rfl

lemma set_default (flag : EnumSliceFlag) (v : Str) :
    (flag.Set v).1.Default = flag.Default := by
  simp only [EnumSliceFlag.Set]
  split
  · rfl
  · split <;> rfl

lemma set_resolvedAllowed (flag : EnumSliceFlag) (v : Str) :
    (flag.Set v).1.resolvedAllowed = flag.resolvedAllowed := by
  cases hf : flag.AllowedFunc with
  | some f =>
    simp [EnumSliceFlag.resolvedAllowed, set_allowedFunc, hf]
  | none =>
    simp [EnumSliceFlag.resolvedAllowed, set_allowedFunc, set_allowed, hf]

lemma set_values (flag : EnumSliceFlag) (v : Str)
    (h : ¬(v = allS ∧ flag.AllAllowed = true)) :
    (flag.Set v).1.Values = insFold flag.resolvedAllowed flag.Values (splitComma v) := by
  rw [set_fst flag v h]

lemma set_all_values (flag : EnumSliceFlag) (h : flag.AllAllowed = true) :
    (flag.Set allS).1.Values = flag.resolvedAllowed := by
  rw [set_all flag h]

lemma get_congr (f g : EnumSliceFlag) (hv : f.Values = g.Values)
    (hf : f.AllowedFunc = g.AllowedFunc) (hd : f.Default = g.Default) :
    f.Get = g.Get := by
  unfold EnumSliceFlag.Get
  rw [hv, hf, hd]

lemma replace_aux (vs : List Str) (f : EnumSliceFlag) (h : f.Values.Nodup) :
    ((List.foldl (fun f v => f.Append v) f vs).Values).Nodup := by
  induction vs generalizing f with
  | nil => exact h
  | cons v vs ih =>
    rw [List.foldl_cons]
    refine ih _ ?_
    unfold EnumSliceFlag.Append
    exact foldIns_nodup _ h

lemma enumFold_unmarked (l : List Str) (acc : List Str × Str)
    (h : ∀ v ∈ l, hasPlus v = false) :
    List.foldl enumScan acc l = (acc.1 ++ l, acc.2) := by
  induction l generalizing acc with
  | nil => simp
  | cons v l ih =>
    rw [List.foldl_cons]
    have hstep : enumScan acc v = (acc.1 ++ [v], acc.2) := by
      unfold enumScan
      rw [if_neg (by simp [h v (List.mem_cons_self ..)])]
    rw [hstep, ih _ fun u hu => h u (List.mem_cons_of_mem _ hu)]
    simp

lemma enumFold_latched (l : List Str) (acc : List Str × Str) (h : acc.2 ≠ []) :
    List.foldl enumScan acc l = (acc.1 ++ l, acc.2) := by
  induction l generalizing acc with
  | nil => simp
  | cons v l ih =>
    rw [List.foldl_cons]
    have hstep : enumScan acc v = (acc.1 ++ [v], acc.2) := by
      unfold enumScan
      rw [if_neg (by simp [h])]
    rw [hstep, ih (acc.1 ++ [v], acc.2) h]
    simp

/-! ### Claim theorems -/

/-- C1 (counterexample): in the current EnumFlag.Set the validation block is
commented out, so an input absent from the allowed list is accepted: on a
flag allowing one, two, three, Set("four") returns success and the stored
value becomes "four" — contradicting the claim that Set rejects it with an
invalid-argument error and leaves the value unchanged. -/
theorem enumFlag_set_no_validation :
    fourS ∉ c1Flag.Allowed
    ∧ (c1Flag.Set fourS).2 = none
    ∧ (c1Flag.Set fourS).1.Value = fourS := by decide

/-- C1 (amended): EnumFlag.Set performs no validation at all: for every flag
and every input string it stores the input as the current value, leaves the
allowed list untouched and returns success; the invalid-argument error is
never produced. -/
theorem enumFlag_set_stores_unconditionally :
    ∀ (flag : EnumFlag) (value : Str),
      (flag.Set value).2 = none
      ∧ (flag.Set value).1.Value = value
      ∧ (flag.Set value).1.Allowed = flag.Allowed :=
  fun _ _ => ⟨rfl, rfl, rfl⟩

/-- C4 (counterexample): constructing an EnumFlag from ["+one", "+two"]
leaves the second marked entry in the allowed list with its marker intact
("+two", not "two"), refuting the claim that the marker is stripped for
every marked entry before it is added to the allowed list. -/
theorem enumFlag_second_marker_not_stripped :
    (NewEnumFlag [('+' :: oneS), ('+' :: twoS)]).Allowed = [oneS, '+' :: twoS]
    ∧ (NewEnumFlag [('+' :: oneS), ('+' :: twoS)]).Value = oneS
    ∧ ('+' :: twoS) ≠ twoS
    ∧ hasPlus ('+' :: twoS) = true := by decide

/-- C4 (amended): in a static EnumFlag construction the first marked entry
(with nonempty text after the marker) becomes the initial value and only it
is stripped before entering the allowed list; every later entry — marked or
not — is added verbatim and ignored as a default; with no marked entry the
initial value is empty and the allowed list is the input unchanged. -/
theorem enumFlag_marker_handling :
    (∀ pre x post : _, (∀ v ∈ pre, hasPlus v = false) → x ≠ [] →
        NewEnumFlag (pre ++ ('+' :: x) :: post)
          = { Allowed := pre ++ x :: post, Value := x })
    ∧ (∀ l : List Str, (∀ v ∈ l, hasPlus v = false) →
        NewEnumFlag l = { Allowed := l, Value := [] }) := by
  constructor
  · intro pre x post hpre hx
    unfold NewEnumFlag
    rw [List.foldl_append, enumFold_unmarked pre ([], []) hpre]
    rw [List.foldl_cons]
    have htrim : trimPlus ('+' :: x) = x := rfl
    have hstep : enumScan (([] : List Str) ++ pre, ([] : Str)) ('+' :: x)
        = ((([] : List Str) ++ pre) ++ [x], x) := by
      unfold enumScan
      rw [if_pos ⟨rfl, rfl⟩, htrim]
    rw [hstep, enumFold_latched post _ hx]
    simp
  · intro l hl
    unfold NewEnumFlag
    rw [enumFold_unmarked l ([], []) hl]
    simp

/-- C4 (witness): instantiating the amended construction law on the list
["one", "+two", "three"]. -/
theorem enumFlag_marker_handling_witness :
    NewEnumFlag [oneS, '+' :: twoS, threeS]
      = { Allowed := [oneS, twoS, threeS], Value := twoS } :=
  enumFlag_marker_handling.1 [oneS] twoS [threeS] (by decide) (by decide)

/-- C7: Contains applies its rules in order: true when the all marker is set
and the candidate is the literal "all"; otherwise false when the candidate
is not in the currently known allowed list; otherwise true when the all
marker is set; otherwise true exactly when the candidate is physically
present in the accumulated values. -/
theorem enumSliceFlag_contains_rules (flag : EnumSliceFlag) (value : Str) :
    (flag.all = true → value = allS → flag.Contains value = true)
    ∧ (¬(flag.all = true ∧ value = allS) → value ∉ flag.Allowed →
        flag.Contains value = false)
    ∧ (flag.all = true → value ∈ flag.Allowed → flag.Contains value = true)
    ∧ (flag.all = false → value ∈ flag.Allowed →
        (flag.Contains value = true ↔ value ∈ flag.Values)) := by
  refine ⟨?_, ?_, ?_, ?_⟩
  · intro h1 h2
    unfold EnumSliceFlag.Contains
    rw [if_pos ⟨h1, h2⟩]
  · intro h1 h2
    unfold EnumSliceFlag.Contains
    rw [if_neg h1, if_pos h2]
  · intro h1 h2
    unfold EnumSliceFlag.Contains
    by_cases hc : flag.all = true ∧ value = allS
    · rw [if_pos hc]
    · rw [if_neg hc, if_neg (by simp [h2]), if_pos h1]
  · intro h1 h2
    unfold EnumSliceFlag.Contains
    rw [if_neg (by simp [h1]), if_neg (by simp [h2]), if_neg (by simp [h1])]
    simp

/-- C7 (witness): on a flag with allowed = values = ["one"] and the all
marker unset, Contains("one") is true by the membership rule. -/
theorem enumSliceFlag_contains_rules_witness :
    c7wFlag.Contains oneS = true :=
  ((enumSliceFlag_contains_rules c7wFlag oneS).2.2.2 rfl (by decide)).mpr
    (by decide)

/-- C8: on an all-allowing flag, Set("all") succeeds, overwrites the values
list with exactly the (resolver-updated) allowed list — discarding whatever
had accumulated before — and raises the internal all marker. -/
theorem enumSliceFlag_set_all_overwrites (flag : EnumSliceFlag)
    (h : flag.AllAllowed = true) :
    (flag.Set allS).2 = none
    ∧ (flag.Set allS).1.Values = flag.resolvedAllowed
    ∧ (flag.Set allS).1.all = true := by
  rw [set_all flag h]
  exact ⟨rfl, rfl, rfl⟩

/-- C8 (witness): on a concrete all-allowing flag that already accumulated
["two"], Set("all") succeeds, replaces the values with the allowed list and
sets the marker. -/
theorem enumSliceFlag_set_all_overwrites_witness :
    (c8wFlag.Set allS).2 = none
    ∧ (c8wFlag.Set allS).1.Values = c8wFlag.resolvedAllowed
    ∧ (c8wFlag.Set allS).1.all = true :=
  enumSliceFlag_set_all_overwrites c8wFlag rfl

/-- C9: whenever EnumSliceFlag.Set returns an invalid-argument error, the
values list is exactly what it was before the call: no token of the failing
batch is appended. -/
theorem enumSliceFlag_set_failure_atomic (flag : EnumSliceFlag) (value : Str)
    (e : SetError) (h : (flag.Set value).2 = some e) :
    (flag.Set value).1.Values = flag.Values := by
  by_cases hall : value = allS ∧ flag.AllAllowed = true
  · obtain ⟨rfl, h2⟩ := hall
    rw [set_all flag h2] at h
    simp at h
  · rw [set_values flag value hall]
    rw [set_snd flag value hall] at h
    by_cases hb :
        ((splitComma value).any fun t => decide (t ∈ flag.resolvedAllowed)) = true
    · rw [if_pos hb] at h
      simp at h
    · apply insFold_of_no_match
      intro t ht hA
      exact hb (by
        simp only [List.any_eq_true, decide_eq_true_eq]
        exact ⟨t, ht, hA⟩)

/-- C9 (witness): a flag allowing only "one" with values ["one"]; the failing
Set("four") returns the invalid-argument error and leaves values intact. -/
theorem enumSliceFlag_set_failure_atomic_witness :
    (c9wFlag.Set fourS).1.Values = c9wFlag.Values :=
  enumSliceFlag_set_failure_atomic c9wFlag fourS
    (SetError.argumentInvalid fourS (joinCS [oneS])) (by decide)

/-- C10 (counterexample): on a flag with empty values, nonempty defaults and
a configured resolver, String() renders "[]" but Get() returns the
resolver's default query result, not the Default field — refuting the claim
that Get on that state returns the defaults list. -/
theorem enumSliceFlag_get_resolver_not_defaults :
    c10Flag.Values = [] ∧ c10Flag.Default = [oneS]
    ∧ c10Flag.toString = ['[', ']']
    ∧ c10Flag.Get = [twoS]
    ∧ c10Flag.Get ≠ c10Flag.Default := by decide

/-- C10 (amended): with empty values, String() always renders "[]" whatever
the defaults are, and Get() returns the Default field when no resolver is
configured (with a resolver it returns the resolver's default query
instead). -/
theorem enumSliceFlag_string_empty_brackets (flag : EnumSliceFlag)
    (h : flag.Values = []) :
    flag.toString = ['[', ']']
    ∧ (flag.AllowedFunc = none → flag.Get = flag.Default) := by
  constructor
  · unfold EnumSliceFlag.toString
    rw [h]
    rfl
  · intro hf
    unfold EnumSliceFlag.Get
    rw [if_pos h, hf]

/-- C10 (witness): a resolver-free flag with empty values and defaults
["one"]: String() is "[]" and Get() is the defaults. -/
theorem enumSliceFlag_string_empty_brackets_witness :
    c10wFlag.toString = ['[', ']'] ∧ c10wFlag.Get = c10wFlag.Default :=
  ⟨(enumSliceFlag_string_empty_brackets c10wFlag rfl).1,
   (enumSliceFlag_string_empty_brackets c10wFlag rfl).2 rfl⟩

/-- C2 (counterexample): after an accepted Set("all") on an all-allowing
flag, the Get accessor of enumslice_flag.go returns the bare allowed list
without the literal "all" token prepended, refuting the claim that
Get/GetSlice returns "all" prepended to the accumulated values. -/
theorem enumSliceFlag_get_no_all_token :
    (c2Flag.Set allS).2 = none
    ∧ (c2Flag.Set allS).1.all = true
    ∧ (c2Flag.Set allS).1.Values = [oneS, twoS]
    ∧ (c2Flag.Set allS).1.Get = [oneS, twoS]
    ∧ (c2Flag.Set allS).1.Get ≠ allS :: (c2Flag.Set allS).1.Values := by decide

/-- C2 (amended): once the all marker is set, the GetSlice revision of the
read accessor returns the literal "all" prepended to the accumulated values
whenever some value has accumulated (Get returns the values bare);
Contains("all") returns true; and Contains returns true on every member of
the allowed list. -/
theorem enumSliceFlag_all_selected_read (flag : EnumSliceFlag)
    (h : flag.all = true) :
    (flag.Values ≠ [] → flag.GetSlice = allS :: flag.Values)
    ∧ flag.Contains allS = true
    ∧ (∀ c ∈ flag.Allowed, flag.Contains c = true) := by
  refine ⟨?_, ?_, ?_⟩
  · intro hv
    unfold EnumSliceFlag.GetSlice
    rw [if_neg hv, if_pos h]
  · unfold EnumSliceFlag.Contains
    rw [if_pos ⟨h, rfl⟩]
  · intro c hc
    unfold EnumSliceFlag.Contains
    by_cases hca : flag.all = true ∧ c = allS
    · rw [if_pos hca]
    · rw [if_neg hca, if_neg (by simp [hc]), if_pos h]

/-- C2 (witness): a marked flag with values ["one"] and allowed
["one", "two"]: GetSlice prepends "all", Contains("all") and Contains("two")
hold. -/
theorem enumSliceFlag_all_selected_read_witness :
    c2wFlag.GetSlice = allS :: c2wFlag.Values
    ∧ c2wFlag.Contains allS = true
    ∧ c2wFlag.Contains twoS = true :=
  ⟨(enumSliceFlag_all_selected_read c2wFlag rfl).1 (by decide),
   (enumSliceFlag_all_selected_read c2wFlag rfl).2.1,
   (enumSliceFlag_all_selected_read c2wFlag rfl).2.2 twoS (by decide)⟩

/-- C3 (counterexample): on an all-allowing flag whose allowed list is
["one"], Set("all") succeeds although no token of the batch is a member of
the allowed list — refuting the claim that Set fails exactly when no token
of the batch is allowed. -/
theorem enumSliceFlag_set_all_bypasses_membership :
    (c3Flag.Set allS).2 = none
    ∧ ∀ t ∈ splitComma allS, t ∉ c3Flag.Allowed := by decide

/-- C3 (amended): for any input other than the accepted "all" shorthand, Set
succeeds exactly when at least one comma-separated token belongs to the
(resolver-updated) allowed list; when it fails, the error is the
invalid-argument error naming the raw input and the comma-joined allowed
list; and tokens outside the allowed list are dropped silently — they enter
the values list only if they were already there. -/
theorem enumSliceFlag_set_partial_accept (flag : EnumSliceFlag) (value : Str)
    (h : ¬(value = allS ∧ flag.AllAllowed = true)) :
    ((flag.Set value).2 = none ↔ ∃ t ∈ splitComma value, t ∈ flag.resolvedAllowed)
    ∧ ((flag.Set value).2 ≠ none →
        (flag.Set value).2
          = some (SetError.argumentInvalid value (joinCS flag.resolvedAllowed)))
    ∧ (∀ t ∈ splitComma value, t ∉ flag.resolvedAllowed →
        (t ∈ (flag.Set value).1.Values ↔ t ∈ flag.Values)) := by
  refine ⟨?_, ?_, ?_⟩
  · rw [set_snd flag value h]
    by_cases hb :
        ((splitComma value).any fun t => decide (t ∈ flag.resolvedAllowed)) = true
    · rw [if_pos hb]
      simp only [List.any_eq_true, decide_eq_true_eq] at hb
      exact iff_of_true rfl hb
    · rw [if_neg hb]
      simp only [List.any_eq_true, decide_eq_true_eq] at hb
      exact iff_of_false (by simp) hb
  · intro hne
    rw [set_snd flag value h] at hne ⊢
    by_cases hb :
        ((splitComma value).any fun t => decide (t ∈ flag.resolvedAllowed)) = true
    · rw [if_pos hb] at hne
      exact absurd rfl hne
    · rw [if_neg hb]
  · intro t ht hA
    rw [set_values flag value h]
    exact mem_insFold_of_not_allowed _ _ _ hA

/-- C3 (witness): on a flag allowing ["one", "two"], the batch "one,zzz"
succeeds because the token "one" is allowed even though "zzz" is not. -/
theorem enumSliceFlag_set_partial_accept_witness :
    (c3wFlag.Set oneZzzS).2 = none :=
  (enumSliceFlag_set_partial_accept c3wFlag oneZzzS (by decide)).1.mpr (by decide)

/-- C5 (counterexample): on a flag that already accumulated ["three"] (with
"one" and "two" allowed), both the batch call Set("one,two") and the
sequential calls Set("one"); Set("two") end with Get() = ["three", "one",
"two"], not the claimed ["one", "two"]. -/
theorem enumSliceFlag_batch_result_not_one_two :
    oneS ∈ c5Flag.Allowed ∧ twoS ∈ c5Flag.Allowed
    ∧ (c5Flag.Set oneTwoS).1.Get = [threeS, oneS, twoS]
    ∧ ((c5Flag.Set oneS).1.Set twoS).1.Get = [threeS, oneS, twoS]
    ∧ ([threeS, oneS, twoS] : List Str) ≠ [oneS, twoS] := by decide

/-- C5 (amended): the batch call Set("one,two") and the sequential calls
Set("one"); Set("two") always leave identical values and identical Get()
results; when the flag's values start empty and both "one" and "two" belong
to the (resolver-updated) allowed list, that common Get() result is
["one", "two"]. -/
theorem enumSliceFlag_batch_eq_sequential (flag : EnumSliceFlag) :
    (flag.Set oneTwoS).1.Values = ((flag.Set oneS).1.Set twoS).1.Values
    ∧ (flag.Set oneTwoS).1.Get = ((flag.Set oneS).1.Set twoS).1.Get
    ∧ (flag.Values = [] → oneS ∈ flag.resolvedAllowed →
        twoS ∈ flag.resolvedAllowed → (flag.Set oneTwoS).1.Get = [oneS, twoS]) := by
  have hno : ∀ (g : EnumSliceFlag) (v : Str), v ≠ allS →
      ¬(v = allS ∧ g.AllAllowed = true) := fun g v hv hc => absurd hc.1 hv
  have hvals :
      (flag.Set oneTwoS).1.Values = ((flag.Set oneS).1.Set twoS).1.Values := by
    rw [set_values flag oneTwoS (hno flag oneTwoS (by decide))]
    rw [set_values ((flag.Set oneS).1) twoS (hno _ twoS (by decide))]
    rw [set_values flag oneS (hno flag oneS (by decide))]
    rw [set_resolvedAllowed]
    have hs : splitComma oneTwoS = splitComma oneS ++ splitComma twoS := by decide
    rw [hs]
    unfold insFold
    rw [List.foldl_append]
  refine ⟨hvals, ?_, ?_⟩
  · refine get_congr _ _ hvals ?_ ?_
    · rw [set_allowedFunc, set_allowedFunc, set_allowedFunc]
    · rw [set_default, set_default, set_default]
  · intro hv h1 h2
    have hvv : (flag.Set oneTwoS).1.Values = [oneS, twoS] := by
      rw [set_values flag oneTwoS (hno flag oneTwoS (by decide)), hv]
      have hs : splitComma oneTwoS = [oneS, twoS] := by decide
      rw [hs]
      unfold insFold
      rw [List.foldl_cons, if_pos h1, List.foldl_cons, if_pos h2, List.foldl_nil]
      decide
    unfold EnumSliceFlag.Get
    rw [hvv]
    rw [if_neg (by decide)]

/-- C5 (witness): on a fresh flag allowing ["one", "two"], the batch call
ends with Get() = ["one", "two"]. -/
theorem enumSliceFlag_batch_eq_sequential_witness :
    (c5wFlag.Set oneTwoS).1.Get = [oneS, twoS] :=
  (enumSliceFlag_batch_eq_sequential c5wFlag).2.2 rfl (by decide) (by decide)

/-- C6 (counterexample): the allowed list may contain duplicates, and
Set("all") copies it into the values verbatim: constructing an all-allowing
flag from ["one", "one"] and calling Set("all") leaves the duplicate entry
["one", "one"] in values — refuting the claim that values never contains a
duplicate under any operation sequence from construction. -/
theorem enumSliceFlag_duplicate_values_via_all :
    ((NewEnumSliceFlagWithAllAllowed [oneS, oneS]).Set allS).1.Values
      = [oneS, oneS]
    ∧ ¬ ([oneS, oneS] : List Str).Nodup := by decide

/-- C6 (amended): values start empty at construction; Set preserves
duplicate-freedom of values whenever the (resolver-updated) allowed list is
duplicate-free (Set("all") copies that list verbatim, so a duplicated
allowed list is the one leak); Append preserves duplicate-freedom
unconditionally and Replace always yields duplicate-free values; and every
non-"all" Set and every Append only appends at the end, preserving
first-insertion order of the existing entries. -/
theorem enumSliceFlag_nodup_invariant :
    (∀ l : List Str, (NewEnumSliceFlag l).Values = [])
    ∧ (∀ (flag : EnumSliceFlag) (v : Str), flag.Values.Nodup →
        flag.resolvedAllowed.Nodup → ((flag.Set v).1.Values).Nodup)
    ∧ (∀ (flag : EnumSliceFlag) (v : Str), flag.Values.Nodup →
        ((flag.Append v).Values).Nodup)
    ∧ (∀ (flag : EnumSliceFlag) (vs : List Str), ((flag.Replace vs).Values).Nodup)
    ∧ (∀ (flag : EnumSliceFlag) (v : Str), ¬(v = allS ∧ flag.AllAllowed = true) →
        ∃ tail, (flag.Set v).1.Values = flag.Values ++ tail)
    ∧ (∀ (flag : EnumSliceFlag) (v : Str),
        ∃ tail, (flag.Append v).Values = flag.Values ++ tail) := by
  refine ⟨?_, ?_, ?_, ?_, ?_, ?_⟩
  · intro l
    rfl
  · intro flag v hV hA
    by_cases hall : v = allS ∧ flag.AllAllowed = true
    · obtain ⟨rfl, h2⟩ := hall
      rw [set_all_values flag h2]
      exact hA
    · rw [set_values flag v hall]
      exact insFold_nodup _ _ hV
  · intro flag v hV
    unfold EnumSliceFlag.Append
    exact foldIns_nodup _ hV
  · intro flag vs
    unfold EnumSliceFlag.Replace
    exact replace_aux vs _ List.nodup_nil
  · intro flag v h
    rw [set_values flag v h]
    exact insFold_exists_append _ _ _
  · intro flag v
    unfold EnumSliceFlag.Append
    exact foldIns_exists_append _ _

/-- C6 (witness): instantiating the Set-preservation part on a fresh flag
allowing ["one", "two"] and the batch "one,two". -/
theorem enumSliceFlag_nodup_invariant_witness :
    ((c6wFlag.Set oneTwoS).1.Values).Nodup :=
  enumSliceFlag_nodup_invariant.2.1 c6wFlag oneTwoS (by decide) (by decide)
